import Mathlib

/-!
Verification development for the rtc-alarm-pi repository.

The Python sources under `src/` (shared between `src/alarm.py` and the
hardware-augmented `src/pi/alarm.py`, whose `Alarm` / `AlarmClock` logic is
identical on the parts modelled here, plus `src/pi/bluetooth_alarm_manager.py`)
are shallowly embedded below.  Python integers are modelled as `Int`; Python's
floor division `//` and modulo `%` (for the positive divisors used by the
source) are `Int.fdiv` and `Int.fmod`.  Python's dynamic `days` field
(`None` | list of weekdays | tuple) is modelled as the inductive `Days`.
Mutation of an `Alarm` object is modelled by returning the updated record, and
file writes performed by `save_alarms_to_file` are modelled by counting them.
-/

namespace RtcAlarm

/-- Clock reading `(year, month, day, hour, minute, second)` as produced by
`DS3231.get_time`. -/
structure Time where
  year : Int
  month : Int
  day : Int
  hour : Int
  minute : Int
  second : Int
deriving DecidableEq, Repr

/-- The dynamic `days` attribute of an `Alarm`: `None` (daily), a Python list
of weekday numbers, or a Python tuple (specific date; tuples of length other
than 3 fall into the source's final `else` branch). -/
inductive Days where
  | daily : Days
  | weekdays (ds : List Int) : Days
  | dateTuple (xs : List Int) : Days
deriving DecidableEq, Repr

/-- The `Alarm` object state (`Alarm.__init__` fields). -/
structure Alarm where
  hour : Int
  minute : Int
  days : Days
  name : String
  enabled : Bool
  recurring : Bool
  vibration_strength : Int
  last_triggered : Option (Int × Int × Int × Int × Int)
deriving DecidableEq, Repr

/-- The `Alarm` constructor: clamps `vibration_strength` to 0-100 and sets
`last_triggered = None`. -/
def Alarm.init (hour minute : Int) (days : Days) (name : String)
    (enabled recurring : Bool) (vibration_strength : Int) : Alarm :=
  { hour := hour, minute := minute, days := days, name := name,
    enabled := enabled, recurring := recurring,
    vibration_strength := max 0 (min 100 vibration_strength),
    last_triggered := none }

/-- The `Alarm._get_weekday` calculation (Zeller's congruence, remapped to
0=Monday): shift January/February to months 13/14 of the previous year,
compute Zeller's weekday (0=Saturday), then `(weekday + 5) % 7`.
Python `//` and `%` are `Int.fdiv` / `Int.fmod`. -/
def get_weekday (year month day : Int) : Int :=
  let month2 := if month < 3 then month + 12 else month
  let year2 := if month < 3 then year - 1 else year
  let k := year2.fmod 100
  let j := year2.fdiv 100
  let w := (day + (13 * (month2 + 1)).fdiv 5 + k + k.fdiv 4 + j.fdiv 4 - 2 * j).fmod 7
  (w + 5).fmod 7

/-- The minute key `(year, month, day, hour, minute)` used by
`should_trigger` to deduplicate firings within one calendar minute. -/
def minuteKey (t : Time) : Int × Int × Int × Int × Int :=
  (t.year, t.month, t.day, t.hour, t.minute)

/-- The day-condition check of `Alarm.should_trigger` (its local variable
`should_trigger` before the mutation step): daily always matches, a weekday
list matches when the computed weekday is in it, a tuple matches on exact
calendar equality when it has length 3 and otherwise never. -/
def Alarm.day_matches (a : Alarm) (t : Time) : Bool :=
  match a.days with
  | .daily => true
  | .weekdays ds => decide (get_weekday t.year t.month t.day ∈ ds)
  | .dateTuple xs =>
    match xs with
    | [ay, am, ad] => decide (t.year = ay ∧ t.month = am ∧ t.day = ad)
    | _ => false

/-- The `Alarm.should_trigger` evaluator.  Returns the boolean result together
with the (possibly mutated) alarm: on a match it records `last_triggered`
and disables a non-recurring alarm. -/
def Alarm.should_trigger (a : Alarm) (t : Time) : Bool × Alarm :=
  if a.enabled = false then (false, a)
  else if t.hour ≠ a.hour ∨ t.minute ≠ a.minute then (false, a)
  else if a.last_triggered = some (minuteKey t) then (false, a)
  else if a.day_matches t then
    (true,
      { a with
        last_triggered := some (minuteKey t),
        enabled := if a.recurring = false then false else a.enabled })
  else (false, a)

/-- The leap-year test used by `_add_days_to_date`:
`year % 4 == 0 and (year % 100 != 0 or year % 400 == 0)`. -/
def isLeap (year : Int) : Bool :=
  year.fmod 4 = 0 ∧ (year.fmod 100 ≠ 0 ∨ year.fmod 400 = 0)

/-- Length of a month per `_add_days_to_date`'s `days_in_month` table (with
index 1 patched to 29 in leap years).  Defined for `1 ≤ month ≤ 12`, the only
values that arise inside the source's loop. -/
def days_in_month (year month : Int) : Int :=
  if month = 2 then (if isLeap year then 29 else 28)
  else if month = 4 ∨ month = 6 ∨ month = 9 ∨ month = 11 then 30
  else 31

/-- The `while day > days_in_month[month - 1]` normalisation loop of
`_add_days_to_date`: subtract the current month's length, step to the next
month, and roll the year (the source re-derives February's length from the
current `year` variable, which this formulation reproduces). -/
def rollDate (year month day : Int) : Int × Int × Int :=
  if h : days_in_month year month < day then
    let d2 := day - days_in_month year month
    if month + 1 > 12 then rollDate (year + 1) 1 d2
    else rollDate year (month + 1) d2
  else (year, month, day)
termination_by day.toNat
decreasing_by
  all_goals
    have h28 : 28 ≤ days_in_month year month := by
      unfold days_in_month
      split
      · split <;> omega
      · split <;> omega
    omega

/-- The `AlarmClock._add_days_to_date` operation: `day += days_to_add`, then
normalise. -/
def add_days_to_date (year month day days_to_add : Int) : Int × Int × Int :=
  rollDate year month (day + days_to_add)

/-- Repeated evaluation of `should_trigger` over a sequence of clock readings,
threading the alarm state; returns the list of results and the final state. -/
def evalSeq : Alarm → List Time → List Bool × Alarm
  | a, [] => ([], a)
  | a, t :: ts =>
    let r := a.should_trigger t
    let rest := evalSeq r.2 ts
    (r.1 :: rest.1, rest.2)

/-- The `AlarmClock._calculate_next_trigger` projection.  Takes the clock
reading (`None` when the RTC read failed) and computes the next trigger
instant, or `none`.  The weekday branch checks today first and then scans
`days_ahead` from 1 to 7, returning the first matching date. -/
def calculate_next_trigger (current_time : Option Time) (alarm : Alarm) :
    Option Time :=
  match current_time with
  | none => none
  | some t =>
    match alarm.days with
    | .daily =>
      if alarm.hour > t.hour ∨ (alarm.hour = t.hour ∧ alarm.minute > t.minute) then
        some ⟨t.year, t.month, t.day, alarm.hour, alarm.minute, 0⟩
      else
        let nd := add_days_to_date t.year t.month t.day 1
        some ⟨nd.1, nd.2.1, nd.2.2, alarm.hour, alarm.minute, 0⟩
    | .weekdays ds =>
      if get_weekday t.year t.month t.day ∈ ds ∧
          (alarm.hour > t.hour ∨ (alarm.hour = t.hour ∧ alarm.minute > t.minute)) then
        some ⟨t.year, t.month, t.day, alarm.hour, alarm.minute, 0⟩
      else
        ([1, 2, 3, 4, 5, 6, 7] : List Int).findSome? (fun days_ahead =>
          let cd := add_days_to_date t.year t.month t.day days_ahead
          if get_weekday cd.1 cd.2.1 cd.2.2 ∈ ds then
            some ⟨cd.1, cd.2.1, cd.2.2, alarm.hour, alarm.minute, 0⟩
          else none)
    | .dateTuple xs =>
      match xs with
      | [ay, am, ad] => some ⟨ay, am, ad, alarm.hour, alarm.minute, 0⟩
      | _ => none

/-- The `AlarmClock.add_alarm` operation.  Returns the boolean result, the
resulting alarm list, and the number of `save_alarms_to_file` calls performed
(the informational next-trigger printout after the save does not mutate
state and is not modelled). -/
def add_alarm (alarms : List Alarm) (hour minute : Int) (days : Days)
    (name : Option String) (recurring : Bool) (vibration_strength : Int) :
    Bool × List Alarm × Nat :=
  let nm := name.getD ("Alarm " ++ toString (alarms.length + 1))
  if ¬(0 ≤ hour ∧ hour ≤ 23) then (false, alarms, 0)
  else if ¬(0 ≤ minute ∧ minute ≤ 59) then (false, alarms, 0)
  else if ¬(0 ≤ vibration_strength ∧ vibration_strength ≤ 100) then (false, alarms, 0)
  else
    (true,
      alarms ++ [Alarm.init hour minute days nm true recurring vibration_strength],
      1)

/-- Number of `save_alarms_to_file` calls performed by one
`AlarmClock.trigger_alarm` invocation: after driving the motor pattern it
always saves the alarms once ("in case a one-time alarm was disabled"). -/
def trigger_alarm_saves : Nat := 1

/-- The per-alarm loop body of `AlarmClock.check_alarms`: evaluates each alarm
with `should_trigger`, calls `trigger_alarm` on each firing alarm (counting
its internal save), and accumulates the `alarms_modified` flag
(`not alarm.enabled and not alarm.recurring` checked after a firing).
Returns the updated alarms, the save count from `trigger_alarm` calls, and
the flag. -/
def check_alarms_go (t : Time) : List Alarm → List Alarm × Nat × Bool
  | [] => ([], 0, false)
  | a :: rest =>
    let r := a.should_trigger t
    let tail := check_alarms_go t rest
    if r.1 then
      (r.2 :: tail.1, trigger_alarm_saves + tail.2.1,
        (!r.2.enabled && !r.2.recurring) || tail.2.2)
    else
      (r.2 :: tail.1, tail.2.1, tail.2.2)

/-- The `AlarmClock.check_alarms` pass: skips everything when the clock is
unavailable, otherwise runs the loop and performs one more save when
`alarms_modified` was set.  Returns the updated alarms and the total number
of `save_alarms_to_file` calls during the pass. -/
def check_alarms (alarms : List Alarm) (current_time : Option Time) :
    List Alarm × Nat :=
  match current_time with
  | none => (alarms, 0)
  | some t =>
    let g := check_alarms_go t alarms
    (g.1, g.2.1 + if g.2.2 then 1 else 0)

/-- JSON image of the `days` field inside a stored alarm record: JSON has no
tuple type, so `json.dump` writes both a Python list and a Python tuple as a
JSON array, and `None` as `null`. -/
inductive JDays where
  | jnull : JDays
  | jarray (xs : List Int) : JDays
deriving DecidableEq, Repr

/-- Modelled from the behaviour of Python's `json` module as used by
`save_alarms_to_file`: `None` serializes to `null`, and both lists and
tuples serialize to JSON arrays. -/
def Days.to_json : Days → JDays
  | .daily => .jnull
  | .weekdays ds => .jarray ds
  | .dateTuple xs => .jarray xs

/-- Modelled from the behaviour of Python's `json` module as used by
`load_alarms_from_file`: `null` loads as `None` (a daily alarm) and a JSON
array always loads as a Python *list*, so a stored specific-date tuple comes
back as a weekday list. -/
def Days.from_json : JDays → Days
  | .jnull => .daily
  | .jarray xs => .weekdays xs

/-- One stored alarm record as written by `Alarm.to_dict` and read back by
`Alarm.from_dict` (all seven keys are always present in a file produced by
`save_alarms_to_file`, so `from_dict`'s `.get` defaults never apply on a
round trip). -/
structure AlarmJson where
  hour : Int
  minute : Int
  days : JDays
  name : String
  enabled : Bool
  recurring : Bool
  vibration_strength : Int
deriving DecidableEq, Repr

/-- The `Alarm.to_dict` serialization composed with the JSON encoding of each
field value. -/
def Alarm.to_dict (a : Alarm) : AlarmJson :=
  ⟨a.hour, a.minute, a.days.to_json, a.name, a.enabled, a.recurring,
    a.vibration_strength⟩

/-- The `Alarm.from_dict` deserialization: reads the record fields and calls
the `Alarm` constructor (which clamps `vibration_strength` and resets
`last_triggered`). -/
def Alarm.from_dict (d : AlarmJson) : Alarm :=
  Alarm.init d.hour d.minute (Days.from_json d.days) d.name d.enabled
    d.recurring d.vibration_strength

/-- The `AlarmClock.save_alarms_to_file` serialization (the stored JSON value
is the list of records). -/
def save_alarms_to_file (alarms : List Alarm) : List AlarmJson :=
  alarms.map Alarm.to_dict

/-- The `AlarmClock.load_alarms_from_file` deserialization of a stored list of
records. -/
def load_alarms_from_file (data : List AlarmJson) : List Alarm :=
  data.map Alarm.from_dict

/-- The seven recognized persisted fields of an alarm. -/
def Alarm.fields (a : Alarm) : Int × Int × Days × String × Bool × Bool × Int :=
  (a.hour, a.minute, a.days, a.name, a.enabled, a.recurring,
    a.vibration_strength)

/-- One entry of `BluetoothAlarmManager.command_queue`: the command string,
the timestamp recorded at enqueue time, and the retry counter. -/
structure QItem where
  command : String
  timestamp : Nat
  retries : Nat
deriving DecidableEq, Repr

/-- The fixed `max_queue_size` set in `BluetoothAlarmManager.__init__`. -/
def max_queue_size : Nat := 10

/-- The `BluetoothAlarmManager._queue_command` operation: drop the oldest
entry when the queue is full, then append the new command with zero
retries. -/
def queue_command (q : List QItem) (command_str : String) (ts : Nat) :
    List QItem :=
  let q2 := if max_queue_size ≤ q.length then q.tail else q
  q2 ++ [⟨command_str, ts, 0⟩]

/-- The `BluetoothAlarmManager._process_command_queue` loop.  `exec` models
whether `_execute_command` raises on a given command string (`true` =
completes without an exception).  On an exception the item's retry counter is
incremented; with fewer than 3 recorded failures it is re-queued at the back,
otherwise a failure response is surfaced (counted in the second component)
and the item is dropped; either way the loop `break`s.  Returns the queue
left for the next pass and the number of surfaced failure responses. -/
def process_command_queue (exec : String → Bool) : List QItem → List QItem × Nat
  | [] => ([], 0)
  | item :: rest =>
    if exec item.command then process_command_queue exec rest
    else
      let item2 : QItem := { item with retries := item.retries + 1 }
      if item2.retries < 3 then (rest ++ [item2], 0)
      else (rest, 1)

/-! Bridging lemmas: Python's `//` and `%` (floor division and
divisor-signed modulo) agree with `Int.ediv`/`Int.emod` for the positive
divisors used by the source, which lets `omega` work on the goals. -/

theorem fmod_seven (a : Int) : a.fmod 7 = a % 7 :=
  Int.fmod_eq_emod _ (by norm_num)

theorem fmod_hundred (a : Int) : a.fmod 100 = a % 100 :=
  Int.fmod_eq_emod _ (by norm_num)

theorem fmod_four (a : Int) : a.fmod 4 = a % 4 :=
  Int.fmod_eq_emod _ (by norm_num)

theorem fmod_four_hundred (a : Int) : a.fmod 400 = a % 400 :=
  Int.fmod_eq_emod _ (by norm_num)

theorem fdiv_hundred (a : Int) : a.fdiv 100 = a / 100 :=
  Int.fdiv_eq_ediv _ (by norm_num)

theorem fdiv_four (a : Int) : a.fdiv 4 = a / 4 :=
  Int.fdiv_eq_ediv _ (by norm_num)

theorem fdiv_five (a : Int) : a.fdiv 5 = a / 5 :=
  Int.fdiv_eq_ediv _ (by norm_num)

theorem get_weekday_range (y m d : Int) :
    0 ≤ get_weekday y m d ∧ get_weekday y m d < 7 := by
  unfold get_weekday
  simp only [fmod_seven]
  exact ⟨Int.emod_nonneg _ (by norm_num), Int.emod_lt_of_pos _ (by norm_num)⟩

theorem get_weekday_add_day (y m d c : Int) :
    get_weekday y m (d + c) = (get_weekday y m d + c) % 7 := by
  unfold get_weekday
  simp only [fmod_seven, fdiv_five, fmod_hundred, fdiv_hundred, fdiv_four]
  by_cases hm : m < 3 <;>
    simp only [if_pos, if_neg, hm, ite_true, ite_false, if_true, if_false] <;>
    omega

set_option maxHeartbeats 1000000 in
theorem get_weekday_roll (y m d : Int) (hm1 : 1 ≤ m) (hm2 : m ≤ 12) :
    get_weekday (if m + 1 > 12 then y + 1 else y) (if m + 1 > 12 then 1 else m + 1)
      (d - days_in_month y m) = get_weekday y m d := by
  interval_cases m <;>
    simp only [get_weekday, days_in_month, isLeap, fmod_seven, fdiv_five,
      fmod_hundred, fdiv_hundred, fdiv_four, fmod_four, fmod_four_hundred] <;>
    norm_num <;>
    omega

theorem days_in_month_ge (year month : Int) : 28 ≤ days_in_month year month := by
  unfold days_in_month
  split
  · split <;> omega
  · split <;> omega

theorem rollDate_add (y m d : Int) (n : Int) (hn : 0 ≤ n) :
    rollDate (rollDate y m d).1 (rollDate y m d).2.1 ((rollDate y m d).2.2 + n) =
      rollDate y m (d + n) := by
  induction y, m, d using rollDate.induct with
  | case1 y m d h d2 h2 ih =>
    have hd2 : d2 = d - days_in_month y m := rfl
    rw [hd2] at ih
    have hroll : rollDate y m d = rollDate (y + 1) 1 (d - days_in_month y m) := by
      conv_lhs => rw [rollDate]
      simp only [dif_pos h, if_pos h2]
    rw [hroll, ih]
    have hgt : days_in_month y m < d + n := by omega
    conv_rhs => rw [rollDate]
    simp only [dif_pos hgt, if_pos h2]
    congr 1
    omega
  | case2 y m d h d2 h2 ih =>
    have hd2 : d2 = d - days_in_month y m := rfl
    rw [hd2] at ih
    have hroll : rollDate y m d = rollDate y (m + 1) (d - days_in_month y m) := by
      conv_lhs => rw [rollDate]
      simp only [dif_pos h, if_neg h2]
    rw [hroll, ih]
    have hgt : days_in_month y m < d + n := by omega
    conv_rhs => rw [rollDate]
    simp only [dif_pos hgt, if_neg h2]
    congr 1
    omega
  | case3 y m d h =>
    have hroll : rollDate y m d = (y, m, d) := by
      rw [rollDate]
      simp only [dif_neg h]
    rw [hroll]

theorem rollDate_weekday (y m d : Int) (hm1 : 1 ≤ m) (hm2 : m ≤ 12) (hd : 1 ≤ d) :
    get_weekday (rollDate y m d).1 (rollDate y m d).2.1 (rollDate y m d).2.2 =
      get_weekday y m d ∧
    1 ≤ (rollDate y m d).2.1 ∧ (rollDate y m d).2.1 ≤ 12 ∧
    1 ≤ (rollDate y m d).2.2 ∧
    (rollDate y m d).2.2 ≤ days_in_month (rollDate y m d).1 (rollDate y m d).2.1 := by
  induction y, m, d using rollDate.induct with
  | case1 y m d h d2 h2 ih =>
    have hd2 : d2 = d - days_in_month y m := rfl
    rw [hd2] at ih
    have h28 := days_in_month_ge y m
    have hroll : rollDate y m d = rollDate (y + 1) 1 (d - days_in_month y m) := by
      conv_lhs => rw [rollDate]
      simp only [dif_pos h, if_pos h2]
    have hstep := get_weekday_roll y m d hm1 hm2
    rw [if_pos h2, if_pos h2] at hstep
    have hih := ih (by omega) (by omega) (by omega)
    rw [hroll]
    exact ⟨hih.1.trans hstep, hih.2⟩
  | case2 y m d h d2 h2 ih =>
    have hd2 : d2 = d - days_in_month y m := rfl
    rw [hd2] at ih
    have h28 := days_in_month_ge y m
    have hroll : rollDate y m d = rollDate y (m + 1) (d - days_in_month y m) := by
      conv_lhs => rw [rollDate]
      simp only [dif_pos h, if_neg h2]
    have hstep := get_weekday_roll y m d hm1 hm2
    rw [if_neg h2, if_neg h2] at hstep
    have hih := ih (by omega) (by omega) (by omega)
    rw [hroll]
    exact ⟨hih.1.trans hstep, hih.2⟩
  | case3 y m d h =>
    have hroll : rollDate y m d = (y, m, d) := by
      rw [rollDate]
      simp only [dif_neg h]
    rw [hroll]
    exact ⟨rfl, hm1, hm2, hd, by simp; omega⟩

theorem get_weekday_add_days (y m d n : Int) (hm1 : 1 ≤ m) (hm2 : m ≤ 12)
    (hd : 1 ≤ d) (hn : 0 ≤ n) :
    get_weekday (add_days_to_date y m d n).1 (add_days_to_date y m d n).2.1
      (add_days_to_date y m d n).2.2 = (get_weekday y m d + n) % 7 := by
  unfold add_days_to_date
  have h := rollDate_weekday y m (d + n) hm1 hm2 (by omega)
  rw [h.1, get_weekday_add_day]

theorem add_days_valid (y m d n : Int) (hm1 : 1 ≤ m) (hm2 : m ≤ 12)
    (hd : 1 ≤ d) (hn : 0 ≤ n) :
    1 ≤ (add_days_to_date y m d n).2.1 ∧ (add_days_to_date y m d n).2.1 ≤ 12 ∧
    1 ≤ (add_days_to_date y m d n).2.2 ∧
    (add_days_to_date y m d n).2.2 ≤
      days_in_month (add_days_to_date y m d n).1 (add_days_to_date y m d n).2.1 := by
  unfold add_days_to_date
  exact (rollDate_weekday y m (d + n) hm1 hm2 (by omega)).2

theorem should_trigger_same_key (a : Alarm) (t : Time)
    (h : a.last_triggered = some (minuteKey t)) :
    a.should_trigger t = (false, a) := by
  unfold Alarm.should_trigger
  split_ifs <;> rfl

theorem should_trigger_fired (a : Alarm) (t : Time)
    (h : (a.should_trigger t).1 = true) :
    (a.should_trigger t).2 =
      { a with
        last_triggered := some (minuteKey t),
        enabled := if a.recurring = false then false else a.enabled } := by
  unfold Alarm.should_trigger at *
  split_ifs at h ⊢ with h1 h2 h3 h4 <;> simp_all

theorem evalSeq_no_fire (a : Alarm) (kt : Time) (ts : List Time)
    (hk : a.last_triggered = some (minuteKey kt))
    (hts : ∀ t2 ∈ ts, minuteKey t2 = minuteKey kt) :
    evalSeq a ts = (List.replicate ts.length false, a) := by
  induction ts with
  | nil => rfl
  | cons t ts ih =>
    have hkey : a.last_triggered = some (minuteKey t) := by
      rw [hts t (List.mem_cons_self t ts)]; exact hk
    have hstep := should_trigger_same_key a t hkey
    have hrest := ih (fun t2 ht2 => hts t2 (List.mem_cons_of_mem t ht2))
    simp [evalSeq, hstep, hrest, List.replicate_succ]

theorem should_trigger_requires_enabled (a : Alarm) (t : Time)
    (h : (a.should_trigger t).1 = true) : a.enabled = true := by
  by_cases he : a.enabled = false
  · unfold Alarm.should_trigger at h
    rw [if_pos he] at h
    simp at h
  · cases hv : a.enabled
    · exact absurd hv he
    · rfl

/-- C1: once `should_trigger` has returned "fires" at a clock reading, every
further evaluation of that alarm at clock readings within the same
`(year, month, day, hour, minute)` calendar minute returns "no match", so at
most one "fires" result arises per minute. -/
theorem claim_C1_fires_once_per_minute (a : Alarm) (t : Time) (ts : List Time)
    (hfire : (a.should_trigger t).1 = true)
    (hsame : ∀ t2 ∈ ts, minuteKey t2 = minuteKey t) :
    ∀ b ∈ (evalSeq (a.should_trigger t).2 ts).1, b = false := by
  have hkey : (a.should_trigger t).2.last_triggered = some (minuteKey t) := by
    rw [should_trigger_fired a t hfire]
  have hrun := evalSeq_no_fire (a.should_trigger t).2 t ts hkey hsame
  rw [hrun]
  intro b hb
  exact List.eq_of_mem_replicate hb

theorem claim_C1_witness :
    ((Alarm.init 7 0 .daily "Morning" true true 75).should_trigger
        ⟨2025, 5, 27, 7, 0, 0⟩).1 = true ∧
    ∀ b ∈ (evalSeq
        ((Alarm.init 7 0 .daily "Morning" true true 75).should_trigger
          ⟨2025, 5, 27, 7, 0, 0⟩).2
        [⟨2025, 5, 27, 7, 0, 30⟩, ⟨2025, 5, 27, 7, 0, 59⟩]).1, b = false :=
  ⟨by decide,
    claim_C1_fires_once_per_minute (Alarm.init 7 0 .daily "Morning" true true 75)
      ⟨2025, 5, 27, 7, 0, 0⟩ [⟨2025, 5, 27, 7, 0, 30⟩, ⟨2025, 5, 27, 7, 0, 59⟩]
      (by decide) (by decide)⟩

/-- C2: a firing evaluation of a non-recurring alarm disables it in that same
step, and a disabled alarm never matches (and is left unchanged); hence a
non-recurring alarm fires at most once until re-enabled. -/
theorem claim_C2_one_shot_disables :
    (∀ (a : Alarm) (t : Time), a.recurring = false →
      (a.should_trigger t).1 = true → (a.should_trigger t).2.enabled = false) ∧
    (∀ (a : Alarm) (t : Time), a.enabled = false →
      a.should_trigger t = (false, a)) := by
  constructor
  · intro a t hrec hfire
    rw [should_trigger_fired a t hfire]
    simp [hrec]
  · intro a t hdis
    unfold Alarm.should_trigger
    rw [if_pos hdis]

theorem claim_C2_witness :
    ((Alarm.init 7 0 .daily "One" true false 75).should_trigger
        ⟨2025, 5, 27, 7, 0, 0⟩).2.enabled = false ∧
    (Alarm.init 7 0 .daily "Off" false true 75).should_trigger
        ⟨2025, 5, 27, 7, 0, 0⟩ =
      (false, Alarm.init 7 0 .daily "Off" false true 75) :=
  ⟨claim_C2_one_shot_disables.1 (Alarm.init 7 0 .daily "One" true false 75)
      ⟨2025, 5, 27, 7, 0, 0⟩ rfl (by decide),
    claim_C2_one_shot_disables.2 (Alarm.init 7 0 .daily "Off" false true 75)
      ⟨2025, 5, 27, 7, 0, 0⟩ rfl⟩

/-- C7: the weekday function is pure, always yields an integer in 0-6, and
matches the reference calendar on the given anchors: 2024-01-01 is Monday (0)
and 2000-02-29 is Tuesday (1). -/
theorem claim_C7_weekday_correct :
    (∀ y m d : Int, 0 ≤ get_weekday y m d ∧ get_weekday y m d < 7) ∧
    get_weekday 2024 1 1 = 0 ∧ get_weekday 2000 2 29 = 1 :=
  ⟨get_weekday_range, by decide, by decide⟩

/-- C8: adding `n1` days and then `n2` days equals adding `n1 + n2` days, for
all nonnegative `n1`, `n2`, including across the 2024 leap-February boundary
and the 2023 year-end boundary. -/
theorem claim_C8_add_days_assoc :
    (∀ (y m d n1 n2 : Int), 0 ≤ n1 → 0 ≤ n2 →
      add_days_to_date (add_days_to_date y m d n1).1
        (add_days_to_date y m d n1).2.1 (add_days_to_date y m d n1).2.2 n2 =
        add_days_to_date y m d (n1 + n2)) ∧
    add_days_to_date 2024 2 28 2 = (2024, 3, 1) ∧
    add_days_to_date 2023 12 30 3 = (2024, 1, 2) := by
  refine ⟨?_, ?_, ?_⟩
  · intro y m d n1 n2 hn1 hn2
    unfold add_days_to_date
    rw [rollDate_add y m (d + n1) n2 hn2]
    congr 1
    ring
  · simp [add_days_to_date, rollDate, days_in_month, isLeap]
  · simp [add_days_to_date, rollDate, days_in_month, isLeap]

theorem claim_C8_witness :
    add_days_to_date (add_days_to_date 2024 2 28 2).1
      (add_days_to_date 2024 2 28 2).2.1 (add_days_to_date 2024 2 28 2).2.2 3 =
      add_days_to_date 2024 2 28 (2 + 3) :=
  claim_C8_add_days_assoc.1 2024 2 28 2 3 (by norm_num) (by norm_num)

/-- C5: `add_alarm` rejects an out-of-range hour, minute or vibration
strength: it returns `False`, leaves the alarm list unchanged, and performs
no persistence write. -/
theorem claim_C5_add_validation (alarms : List Alarm) (hour minute : Int)
    (days : Days) (name : Option String) (recurring : Bool) (strength : Int)
    (h : ¬(0 ≤ hour ∧ hour ≤ 23) ∨ ¬(0 ≤ minute ∧ minute ≤ 59) ∨
      ¬(0 ≤ strength ∧ strength ≤ 100)) :
    add_alarm alarms hour minute days name recurring strength =
      (false, alarms, 0) := by
  unfold add_alarm
  split_ifs with h1 h2 h3 <;> first | rfl | tauto

theorem claim_C5_witness :
    add_alarm [] 24 0 .daily none true 75 = (false, [], 0) ∧
    add_alarm [] 7 60 .daily none true 75 = (false, [], 0) ∧
    add_alarm [] 7 0 .daily none true 101 = (false, [], 0) :=
  ⟨claim_C5_add_validation [] 24 0 .daily none true 75 (Or.inl (by norm_num)),
    claim_C5_add_validation [] 7 60 .daily none true 75
      (Or.inr (Or.inl (by norm_num))),
    claim_C5_add_validation [] 7 0 .daily none true 101
      (Or.inr (Or.inr (by norm_num)))⟩

/-- C10: `add_alarm` never inspects the `days` argument, so any recurrence
value is accepted and appended whenever hour, minute and strength are in
range; and an alarm whose weekday list is non-empty with every entry outside
0-6 can never fire, because the computed weekday always lies in 0-6. -/
theorem claim_C10_days_unvalidated :
    (∀ (alarms : List Alarm) (hour minute : Int) (days : Days)
        (name : Option String) (recurring : Bool) (strength : Int),
      0 ≤ hour ∧ hour ≤ 23 → 0 ≤ minute ∧ minute ≤ 59 →
      0 ≤ strength ∧ strength ≤ 100 →
      add_alarm alarms hour minute days name recurring strength =
        (true,
          alarms ++ [Alarm.init hour minute days
            (name.getD ("Alarm " ++ toString (alarms.length + 1)))
            true recurring strength],
          1)) ∧
    (∀ (a : Alarm) (t : Time) (ds : List Int), a.days = .weekdays ds →
      ds ≠ [] → (∀ x ∈ ds, ¬(0 ≤ x ∧ x ≤ 6)) →
      (a.should_trigger t).1 = false) := by
  constructor
  · intro alarms hour minute days name recurring strength hh hm hs
    unfold add_alarm
    split_ifs with h1 h2 h3 <;> first | rfl | tauto
  · intro a t ds hdays hne hout
    unfold Alarm.should_trigger
    split_ifs with h1 h2 h3 h4
    · rfl
    · rfl
    · rfl
    · exfalso
      unfold Alarm.day_matches at h4
      rw [hdays] at h4
      simp only [decide_eq_true_eq] at h4
      have hr := get_weekday_range t.year t.month t.day
      exact hout _ h4 ⟨hr.1, by omega⟩
    · rfl

theorem claim_C10_witness :
    add_alarm [] 12 0 (.weekdays [7]) (some "Odd") true 75 =
      (true, [Alarm.init 12 0 (.weekdays [7]) "Odd" true true 75], 1) ∧
    ((Alarm.init 12 0 (.weekdays [7]) "Odd" true true 75).should_trigger
      ⟨2025, 5, 27, 12, 0, 0⟩).1 = false :=
  ⟨claim_C10_days_unvalidated.1 [] 12 0 (.weekdays [7]) (some "Odd") true 75
      (by norm_num) (by norm_num) (by norm_num),
    claim_C10_days_unvalidated.2
      (Alarm.init 12 0 (.weekdays [7]) "Odd" true true 75)
      ⟨2025, 5, 27, 12, 0, 0⟩ [7] rfl (by decide) (by decide)⟩

theorem should_trigger_fired_recurring (a : Alarm) (t : Time)
    (h : (a.should_trigger t).1 = true) :
    (a.should_trigger t).2.recurring = a.recurring ∧
    (a.should_trigger t).2.enabled = a.recurring := by
  have hen := should_trigger_requires_enabled a t h
  rw [should_trigger_fired a t h]
  cases hr : a.recurring <;> simp [hr, hen]

theorem check_alarms_go_spec (t : Time) (alarms : List Alarm) :
    (check_alarms_go t alarms).2.1 =
      (alarms.filter (fun a => (a.should_trigger t).1)).length ∧
    (check_alarms_go t alarms).2.2 =
      alarms.any (fun a => (a.should_trigger t).1 && !a.recurring) := by
  induction alarms with
  | nil => simp [check_alarms_go]
  | cons a rest ih =>
    by_cases hf : (a.should_trigger t).1 = true
    · have hrec := should_trigger_fired_recurring a t hf
      unfold check_alarms_go
      simp only [hf, if_true, List.filter_cons, List.any_cons,
        trigger_alarm_saves, ih.1, ih.2, hrec.1, hrec.2]
      constructor
      · simp only [hf, if_true, List.length_cons]
        omega
      · cases hr : a.recurring <;> simp [hr, hf]
    · have hf2 : (a.should_trigger t).1 = false := by
        cases hv : (a.should_trigger t).1
        · rfl
        · exact absurd hv hf
      unfold check_alarms_go
      simp only [hf2, List.filter_cons, List.any_cons, ih.1, ih.2]
      simp [hf2]

/-- C4 counterexample: the claim says persistence happens at most once per
evaluation pass, only after the pass, and only when a one-shot alarm was
consumed.  But `trigger_alarm` itself saves once per firing alarm inside the
pass: a single firing one-shot alarm produces two writes, and a single firing
recurring alarm produces one write even though no alarm became disabled. -/
theorem claim_C4_counterexample :
    (check_alarms [Alarm.init 7 0 .daily "One" true false 75]
      (some ⟨2025, 5, 27, 7, 0, 0⟩)).2 = 2 ∧
    (check_alarms [Alarm.init 7 0 .daily "Rec" true true 75]
      (some ⟨2025, 5, 27, 7, 0, 0⟩)).2 = 1 := by
  constructor <;> rfl

/-- C4 amended: during one `check_alarms` pass the number of persistence
writes equals the number of alarms that fire (each `trigger_alarm` call saves
once, inside the pass) plus one batched write after the pass exactly when
some non-recurring alarm fired (and was thereby disabled). -/
theorem claim_C4_saves_amended (alarms : List Alarm) (t : Time) :
    (check_alarms alarms (some t)).2 =
      (alarms.filter (fun a => (a.should_trigger t).1)).length +
      (if alarms.any (fun a => (a.should_trigger t).1 && !a.recurring)
        then 1 else 0) := by
  have h := check_alarms_go_spec t alarms
  simp only [check_alarms]
  rw [h.1, h.2]

/-- C3 counterexample: a specific-date alarm does not survive the round trip
on the `days` field.  `json.dump` writes the Python tuple `(2025, 6, 1)` as a
JSON array, and `json.load` returns that array as a Python *list*, so the
reloaded alarm carries the weekday list `[2025, 6, 1]` instead of the
specific-date tuple. -/
theorem claim_C3_counterexample :
    (load_alarms_from_file (save_alarms_to_file
        [Alarm.init 8 30 (.dateTuple [2025, 6, 1]) "Trip" true false 75])).map
      (fun a => a.days) = [.weekdays [2025, 6, 1]] ∧
    (Alarm.init 8 30 (.dateTuple [2025, 6, 1]) "Trip" true false 75).days =
      .dateTuple [2025, 6, 1] ∧
    Days.weekdays [2025, 6, 1] ≠ Days.dateTuple [2025, 6, 1] :=
  ⟨rfl, rfl, by decide⟩

/-- C3 amended: for every registry (whose strengths satisfy the 0-100
invariant the `Alarm` constructor establishes), the round trip reproduces the
ordered list exactly on hour, minute, name, enabled, recurring and
vibration_strength, and reproduces `days` up to the JSON degrade that turns a
specific-date tuple into the weekday list with the same three entries; in
particular the round trip is the identity on the recognized fields whenever
no alarm uses a specific-date tuple. -/
theorem claim_C3_roundtrip_amended (alarms : List Alarm)
    (hs : ∀ a ∈ alarms, 0 ≤ a.vibration_strength ∧ a.vibration_strength ≤ 100) :
    ((load_alarms_from_file (save_alarms_to_file alarms)).map Alarm.fields =
      alarms.map (fun a => (a.hour, a.minute, Days.from_json a.days.to_json,
        a.name, a.enabled, a.recurring, a.vibration_strength))) ∧
    ((∀ a ∈ alarms, ∀ xs, a.days ≠ .dateTuple xs) →
      (load_alarms_from_file (save_alarms_to_file alarms)).map Alarm.fields =
        alarms.map Alarm.fields) := by
  have key : (load_alarms_from_file (save_alarms_to_file alarms)).map Alarm.fields =
      alarms.map (fun a => (a.hour, a.minute, Days.from_json a.days.to_json,
        a.name, a.enabled, a.recurring, a.vibration_strength)) := by
    unfold load_alarms_from_file save_alarms_to_file
    rw [List.map_map, List.map_map]
    apply List.map_congr_left
    intro a ha
    have hcl : max 0 (min 100 a.vibration_strength) = a.vibration_strength := by
      have := hs a ha
      omega
    simp [Alarm.fields, Alarm.from_dict, Alarm.to_dict, Alarm.init, hcl]
  refine ⟨key, fun h2 => ?_⟩
  rw [key]
  apply List.map_congr_left
  intro a ha
  have hd : Days.from_json a.days.to_json = a.days := by
    cases hda : a.days with
    | daily => rfl
    | weekdays ds => rfl
    | dateTuple xs => exact absurd hda (h2 a ha xs)
  simp [Alarm.fields, hd]

theorem claim_C3_witness :
    (load_alarms_from_file (save_alarms_to_file
        [Alarm.init 7 0 .daily "A" true true 75,
          Alarm.init 6 30 (.weekdays [0, 1, 2, 3, 4]) "B" true true 50])).map
      Alarm.fields =
      [Alarm.init 7 0 .daily "A" true true 75,
        Alarm.init 6 30 (.weekdays [0, 1, 2, 3, 4]) "B" true true 50].map
        Alarm.fields :=
  (claim_C3_roundtrip_amended
      [Alarm.init 7 0 .daily "A" true true 75,
        Alarm.init 6 30 (.weekdays [0, 1, 2, 3, 4]) "B" true true 50]
      (by decide)).2
    (by
      intro a ha xs
      fin_cases ha <;> simp [Alarm.init])

/-- C9 counterexample: the processing pass does not keep going past a command
whose retries are not yet exhausted.  With a queue holding a failing command
(zero recorded failures) followed by a command that would succeed, the pass
re-queues the failed item at the back and `break`s immediately: the
succeeding command is left unprocessed in the queue, although no command had
exhausted its retries, and the re-queued item now sits behind it. -/
theorem claim_C9_counterexample :
    process_command_queue (fun s => !(s == "b")) [⟨"b", 0, 0⟩, ⟨"g", 0, 0⟩] =
      ([⟨"g", 0, 0⟩, ⟨"b", 0, 1⟩], 0) ∧
    (fun s => !(s == "b")) "g" = true :=
  ⟨rfl, rfl⟩

/-- C9 amended: the queue is bounded at the fixed capacity 10 with drop-oldest
on overflow; a pass over an all-succeeding queue drains it; and a pass stops
at the FIRST failing command (whether or not its retries are exhausted): with
fewer than 3 recorded failures the item is re-queued at the back and no
failure surfaces, and on its 3rd failure a failure response is surfaced and
the item is dropped; the commands after it stay queued in order for the next
pass. -/
theorem claim_C9_queue_amended :
    (∀ (q : List QItem) (c : String) (ts : Nat),
      q.length ≤ max_queue_size →
      (queue_command q c ts).length ≤ max_queue_size) ∧
    (∀ (q : List QItem) (c : String) (ts : Nat),
      q.length = max_queue_size →
      queue_command q c ts = q.tail ++ [⟨c, ts, 0⟩]) ∧
    (∀ (ex : String → Bool) (q : List QItem),
      (∀ i ∈ q, ex i.command = true) →
      process_command_queue ex q = ([], 0)) ∧
    (∀ (ex : String → Bool) (pre : List QItem) (item : QItem)
        (rest : List QItem),
      (∀ i ∈ pre, ex i.command = true) → ex item.command = false →
      process_command_queue ex (pre ++ item :: rest) =
        if item.retries + 1 < 3
        then (rest ++ [{ item with retries := item.retries + 1 }], 0)
        else (rest, 1)) := by
  refine ⟨?_, ?_, ?_, ?_⟩
  · intro q c ts h
    unfold queue_command
    split_ifs with h1
    · simp only [List.length_append, List.length_tail, List.length_cons,
        List.length_nil]
      simp only [max_queue_size] at h h1 ⊢
      omega
    · simp only [List.length_append, List.length_cons, List.length_nil]
      simp only [max_queue_size] at h h1 ⊢
      omega
  · intro q c ts h
    unfold queue_command
    rw [if_pos h.ge]
  · intro ex q
    induction q with
    | nil => intro _; rfl
    | cons i rest ih =>
      intro hall
      have h1 := hall i (List.mem_cons_self i rest)
      simp only [process_command_queue, h1, if_true]
      exact ih (fun j hj => hall j (List.mem_cons_of_mem i hj))
  · intro ex pre item rest
    induction pre with
    | nil =>
      intro _ hfail
      simp only [List.nil_append, process_command_queue, hfail,
        Bool.false_eq_true, if_false]
    | cons p pre ih =>
      intro hall hfail
      have hp := hall p (List.mem_cons_self p pre)
      simp only [List.cons_append, process_command_queue, hp, if_true]
      exact ih (fun j hj => hall j (List.mem_cons_of_mem p hj)) hfail

theorem claim_C9_witness :
    (queue_command [⟨"c", 0, 0⟩] "n" 1).length ≤ max_queue_size ∧
    queue_command
        [⟨"c0", 0, 0⟩, ⟨"c1", 0, 0⟩, ⟨"c2", 0, 0⟩, ⟨"c3", 0, 0⟩, ⟨"c4", 0, 0⟩,
          ⟨"c5", 0, 0⟩, ⟨"c6", 0, 0⟩, ⟨"c7", 0, 0⟩, ⟨"c8", 0, 0⟩, ⟨"c9", 0, 0⟩]
        "n" 1 =
      [⟨"c1", 0, 0⟩, ⟨"c2", 0, 0⟩, ⟨"c3", 0, 0⟩, ⟨"c4", 0, 0⟩, ⟨"c5", 0, 0⟩,
        ⟨"c6", 0, 0⟩, ⟨"c7", 0, 0⟩, ⟨"c8", 0, 0⟩, ⟨"c9", 0, 0⟩, ⟨"n", 1, 0⟩] ∧
    process_command_queue (fun s => !(s == "b")) [⟨"g", 0, 0⟩, ⟨"h", 0, 0⟩] =
      ([], 0) ∧
    process_command_queue (fun s => !(s == "b"))
        ([⟨"g", 0, 0⟩] ++ ⟨"b", 0, 2⟩ :: [⟨"h", 0, 0⟩]) =
      ([⟨"h", 0, 0⟩], 1) :=
  ⟨claim_C9_queue_amended.1 [⟨"c", 0, 0⟩] "n" 1 (by decide),
    claim_C9_queue_amended.2.1
      [⟨"c0", 0, 0⟩, ⟨"c1", 0, 0⟩, ⟨"c2", 0, 0⟩, ⟨"c3", 0, 0⟩, ⟨"c4", 0, 0⟩,
        ⟨"c5", 0, 0⟩, ⟨"c6", 0, 0⟩, ⟨"c7", 0, 0⟩, ⟨"c8", 0, 0⟩, ⟨"c9", 0, 0⟩]
      "n" 1 rfl,
    claim_C9_queue_amended.2.2.1 (fun s => !(s == "b"))
      [⟨"g", 0, 0⟩, ⟨"h", 0, 0⟩] (by decide),
    claim_C9_queue_amended.2.2.2 (fun s => !(s == "b"))
      [⟨"g", 0, 0⟩] ⟨"b", 0, 2⟩ [⟨"h", 0, 0⟩] (by decide) (by decide)⟩

/-- C6: for an alarm whose recurrence is a non-empty weekday list drawn from
0-6 and a valid current date, `_calculate_next_trigger` returns a concrete
instant: today at the alarm time when today's weekday is in the list and the
alarm time is still ahead of now, and otherwise the date reached by the first
`days_ahead` in 1..7 whose weekday is in the list.  It can return `none` for
a weekday alarm only when the list is empty (or the date invalid). -/
theorem claim_C6_weekday_next_trigger (alarm : Alarm) (t : Time) (ds : List Int)
    (hdays : alarm.days = .weekdays ds) (hne : ds ≠ [])
    (hds : ∀ x ∈ ds, 0 ≤ x ∧ x ≤ 6)
    (hm1 : 1 ≤ t.month) (hm2 : t.month ≤ 12)
    (hd1 : 1 ≤ t.day) (hd2 : t.day ≤ days_in_month t.year t.month) :
    ∃ r, calculate_next_trigger (some t) alarm = some r ∧
      ((get_weekday t.year t.month t.day ∈ ds ∧
          (alarm.hour > t.hour ∨ (alarm.hour = t.hour ∧ alarm.minute > t.minute))) →
        r = ⟨t.year, t.month, t.day, alarm.hour, alarm.minute, 0⟩) ∧
      (¬(get_weekday t.year t.month t.day ∈ ds ∧
          (alarm.hour > t.hour ∨ (alarm.hour = t.hour ∧ alarm.minute > t.minute))) →
        ∃ k : Int, 1 ≤ k ∧ k ≤ 7 ∧
          get_weekday (add_days_to_date t.year t.month t.day k).1
            (add_days_to_date t.year t.month t.day k).2.1
            (add_days_to_date t.year t.month t.day k).2.2 ∈ ds ∧
          (∀ j : Int, 1 ≤ j → j < k →
            get_weekday (add_days_to_date t.year t.month t.day j).1
              (add_days_to_date t.year t.month t.day j).2.1
              (add_days_to_date t.year t.month t.day j).2.2 ∉ ds) ∧
          r = ⟨(add_days_to_date t.year t.month t.day k).1,
              (add_days_to_date t.year t.month t.day k).2.1,
              (add_days_to_date t.year t.month t.day k).2.2,
              alarm.hour, alarm.minute, 0⟩) := by
  have hW : ∀ k : Int, 0 ≤ k →
      get_weekday (add_days_to_date t.year t.month t.day k).1
        (add_days_to_date t.year t.month t.day k).2.1
        (add_days_to_date t.year t.month t.day k).2.2 =
        (get_weekday t.year t.month t.day + k) % 7 :=
    fun k hk => get_weekday_add_days t.year t.month t.day k hm1 hm2 hd1 hk
  simp only [calculate_next_trigger, hdays]
  by_cases hc : get_weekday t.year t.month t.day ∈ ds ∧
      (alarm.hour > t.hour ∨ (alarm.hour = t.hour ∧ alarm.minute > t.minute))
  · rw [if_pos hc]
    exact ⟨⟨t.year, t.month, t.day, alarm.hour, alarm.minute, 0⟩, rfl,
      fun _ => rfl, fun hcon => absurd hc hcon⟩
  · rw [if_neg hc]
    by_cases h1 : get_weekday (add_days_to_date t.year t.month t.day 1).1
        (add_days_to_date t.year t.month t.day 1).2.1
        (add_days_to_date t.year t.month t.day 1).2.2 ∈ ds
    · refine ⟨_, ?_, fun hcon => absurd hcon hc, fun _ =>
        ⟨1, by norm_num, by norm_num, h1, fun j hj1 hj2 => absurd (by omega) (by omega : ¬(1:Int) ≤ 0), rfl⟩⟩
      simp only [List.findSome?_cons, if_pos h1]
    · by_cases h2 : get_weekday (add_days_to_date t.year t.month t.day 2).1
          (add_days_to_date t.year t.month t.day 2).2.1
          (add_days_to_date t.year t.month t.day 2).2.2 ∈ ds
      · refine ⟨_, ?_, fun hcon => absurd hcon hc, fun _ =>
          ⟨2, by norm_num, by norm_num, h2, ?_, rfl⟩⟩
        · simp only [List.findSome?_cons, if_neg h1, if_pos h2]
        · intro j hj1 hj2
          interval_cases j
          exact h1
      · by_cases h3 : get_weekday (add_days_to_date t.year t.month t.day 3).1
            (add_days_to_date t.year t.month t.day 3).2.1
            (add_days_to_date t.year t.month t.day 3).2.2 ∈ ds
        · refine ⟨_, ?_, fun hcon => absurd hcon hc, fun _ =>
            ⟨3, by norm_num, by norm_num, h3, ?_, rfl⟩⟩
          · simp only [List.findSome?_cons, if_neg h1, if_neg h2, if_pos h3]
          · intro j hj1 hj2
            interval_cases j
            · exact h1
            · exact h2
        · by_cases h4 : get_weekday (add_days_to_date t.year t.month t.day 4).1
              (add_days_to_date t.year t.month t.day 4).2.1
              (add_days_to_date t.year t.month t.day 4).2.2 ∈ ds
          · refine ⟨_, ?_, fun hcon => absurd hcon hc, fun _ =>
              ⟨4, by norm_num, by norm_num, h4, ?_, rfl⟩⟩
            · simp only [List.findSome?_cons, if_neg h1, if_neg h2, if_neg h3,
                if_pos h4]
            · intro j hj1 hj2
              interval_cases j
              · exact h1
              · exact h2
              · exact h3
          · by_cases h5 : get_weekday (add_days_to_date t.year t.month t.day 5).1
                (add_days_to_date t.year t.month t.day 5).2.1
                (add_days_to_date t.year t.month t.day 5).2.2 ∈ ds
            · refine ⟨_, ?_, fun hcon => absurd hcon hc, fun _ =>
                ⟨5, by norm_num, by norm_num, h5, ?_, rfl⟩⟩
              · simp only [List.findSome?_cons, if_neg h1, if_neg h2, if_neg h3,
                  if_neg h4, if_pos h5]
              · intro j hj1 hj2
                interval_cases j
                · exact h1
                · exact h2
                · exact h3
                · exact h4
            · by_cases h6 : get_weekday (add_days_to_date t.year t.month t.day 6).1
                  (add_days_to_date t.year t.month t.day 6).2.1
                  (add_days_to_date t.year t.month t.day 6).2.2 ∈ ds
              · refine ⟨_, ?_, fun hcon => absurd hcon hc, fun _ =>
                  ⟨6, by norm_num, by norm_num, h6, ?_, rfl⟩⟩
                · simp only [List.findSome?_cons, if_neg h1, if_neg h2, if_neg h3,
                    if_neg h4, if_neg h5, if_pos h6]
                · intro j hj1 hj2
                  interval_cases j
                  · exact h1
                  · exact h2
                  · exact h3
                  · exact h4
                  · exact h5
              · by_cases h7 : get_weekday (add_days_to_date t.year t.month t.day 7).1
                    (add_days_to_date t.year t.month t.day 7).2.1
                    (add_days_to_date t.year t.month t.day 7).2.2 ∈ ds
                · refine ⟨_, ?_, fun hcon => absurd hcon hc, fun _ =>
                    ⟨7, by norm_num, by norm_num, h7, ?_, rfl⟩⟩
                  · simp only [List.findSome?_cons, if_neg h1, if_neg h2,
                      if_neg h3, if_neg h4, if_neg h5, if_neg h6, if_pos h7]
                  · intro j hj1 hj2
                    interval_cases j
                    · exact h1
                    · exact h2
                    · exact h3
                    · exact h4
                    · exact h5
                    · exact h6
                · exfalso
                  obtain ⟨x, hx⟩ := List.exists_mem_of_ne_nil ds hne
                  have hxr := hds x hx
                  have hw0 := get_weekday_range t.year t.month t.day
                  obtain ⟨k0, hk01, hk07, hk0W⟩ :
                      ∃ k0 : Int, 1 ≤ k0 ∧ k0 ≤ 7 ∧
                        get_weekday (add_days_to_date t.year t.month t.day k0).1
                          (add_days_to_date t.year t.month t.day k0).2.1
                          (add_days_to_date t.year t.month t.day k0).2.2 ∈ ds := by
                    refine ⟨(x - get_weekday t.year t.month t.day - 1) % 7 + 1,
                      by omega, by omega, ?_⟩
                    have hval : get_weekday
                        (add_days_to_date t.year t.month t.day
                          ((x - get_weekday t.year t.month t.day - 1) % 7 + 1)).1
                        (add_days_to_date t.year t.month t.day
                          ((x - get_weekday t.year t.month t.day - 1) % 7 + 1)).2.1
                        (add_days_to_date t.year t.month t.day
                          ((x - get_weekday t.year t.month t.day - 1) % 7 + 1)).2.2 =
                        x := by
                      rw [hW _ (by omega)]
                      omega
                    rw [hval]
                    exact hx
                  interval_cases k0
                  · exact h1 hk0W
                  · exact h2 hk0W
                  · exact h3 hk0W
                  · exact h4 hk0W
                  · exact h5 hk0W
                  · exact h6 hk0W
                  · exact h7 hk0W

theorem claim_C6_witness :
    ∃ r, calculate_next_trigger (some ⟨2025, 5, 27, 10, 0, 0⟩)
        (Alarm.init 7 0 (.weekdays [0]) "Mon" true true 75) = some r ∧
      ((get_weekday 2025 5 27 ∈ [(0 : Int)] ∧
          ((7 : Int) > 10 ∨ ((7 : Int) = 10 ∧ (0 : Int) > 0))) →
        r = ⟨2025, 5, 27, 7, 0, 0⟩) ∧
      (¬(get_weekday 2025 5 27 ∈ [(0 : Int)] ∧
          ((7 : Int) > 10 ∨ ((7 : Int) = 10 ∧ (0 : Int) > 0))) →
        ∃ k : Int, 1 ≤ k ∧ k ≤ 7 ∧
          get_weekday (add_days_to_date 2025 5 27 k).1
            (add_days_to_date 2025 5 27 k).2.1
            (add_days_to_date 2025 5 27 k).2.2 ∈ [(0 : Int)] ∧
          (∀ j : Int, 1 ≤ j → j < k →
            get_weekday (add_days_to_date 2025 5 27 j).1
              (add_days_to_date 2025 5 27 j).2.1
              (add_days_to_date 2025 5 27 j).2.2 ∉ [(0 : Int)]) ∧
          r = ⟨(add_days_to_date 2025 5 27 k).1,
              (add_days_to_date 2025 5 27 k).2.1,
              (add_days_to_date 2025 5 27 k).2.2, 7, 0, 0⟩) :=
  claim_C6_weekday_next_trigger
    (Alarm.init 7 0 (.weekdays [0]) "Mon" true true 75)
    ⟨2025, 5, 27, 10, 0, 0⟩ [0] rfl (by decide) (by decide)
    (by norm_num) (by norm_num) (by norm_num)
    (by simp [days_in_month, isLeap])

end RtcAlarm
